import Mathlib

/-!
Shallow embedding of the cross-host file-handoff signing protocol of
BlueMona/desktop-release-builder, and verification of its specification.

The embedding covers:
* the `Queue` class of `helpers.js` (lines 17-38), modelling JS promise
  chaining: each queued function returns a promise whose eventual settled
  state is modelled by `POutcome`; `tail.then(fn)` runs `fn` only when the
  tail promise fulfilled, and propagates a rejection otherwise;
* the `watchDir` polling watcher of `helpers.js` (lines 93-140), modelled as
  a state machine whose events are timer firings (one run of
  `checkForChanges` over a directory listing) and disposer calls;
* the per-entry `fs.stat` callback inside `watchDir` (lines 101-113),
  including the JavaScript semantics of a member access on `undefined`;
* `moveFileToDir` (helpers.js 56-64) and the path functions it uses, with
  filesystem paths modelled structurally as lists of components
  (`path.join dir name` appends a component, `path.basename` is the last
  component);
* the signing agent of `winsigner.js` (`handleFile`, `signFile`), including
  the exact argument list and options of its `execFile` invocation;
* the handoff client of `osslsigncode.js` (`signWindowsExecutable` and the
  copy-then-best-effort-delete relocation of the signed artifact);
* the environment block built by `buildRelease` in `builder.js`
  (lines 251-257).
-/

/-- The eventual settled state of a JavaScript promise. -/
inductive POutcome
  | fulfilled
  | rejected
deriving DecidableEq, Repr

/-- State of a `Queue` instance (helpers.js 17-38): `names` is the record of
"already queued" keys (`this.names`, an object used as a set); `tail` is the
settled state of the current tail promise, `none` when `this.tail` is still
`null`. -/
structure QueueState where
  names : List String
  tail : Option POutcome
deriving DecidableEq, Repr

/-- `new Queue()`: `this.names = {}; this.tail = null;`. -/
def Queue.new : QueueState :=
  { names := [], tail := none }

/-- `this.tail = this.tail ? this.tail.then(fn) : fn()` (helpers.js 36).
Returns the settled state of the new tail promise and whether `fn` ran:
when the tail is `null` the function is invoked immediately; `then` on a
fulfilled promise runs `fn`; `then` on a rejected promise skips `fn` and
propagates the rejection. -/
def chainStep : Option POutcome → POutcome → Option POutcome × Bool
  | none, fn => (some fn, true)
  | some POutcome.fulfilled, fn => (some fn, true)
  | some POutcome.rejected, _ => (some POutcome.rejected, false)

/-- `Queue.add(fn, name)` from helpers.js 32-37.  The submitted function is
represented by the settled state its returned promise would reach when run.
Returns the new queue state and whether the function is ever run.

Faithfully to the source: `if (name) { if (this.names[name]) return; }`
discards only when the name is truthy (non-empty) and recorded in `names`;
no statement ever assigns to `this.names`, so `names` never grows. -/
def Queue.add (s : QueueState) (fn : POutcome) (name : Option String) :
    QueueState × Bool :=
  let discard : Bool :=
    match name with
    | some n => n ≠ "" && s.names.contains n
    | none => false
  if discard then (s, false)
  else
    let r := chainStep s.tail fn
    ({ s with tail := r.1 }, r.2)

/-- Run a sequence of `Queue.add` submissions from a given state, returning
the final state and, per submission, whether its function ran. -/
def runQueue (s : QueueState) : List (POutcome × Option String) → QueueState × List Bool
  | [] => (s, [])
  | (fn, name) :: rest =>
    let r := Queue.add s fn name
    let rr := runQueue r.1 rest
    (rr.1, r.2 :: rr.2)

/-- Expected run pattern of a promise chain: the i-th submitted operation
runs exactly when every earlier operation's promise fulfilled. -/
def chainRan (ops : List POutcome) : List Bool :=
  (List.range ops.length).map fun i => (ops.take i).all (· = POutcome.fulfilled)


/-- Result of `fs.stat` on one listed entry: `none` models the error case
(the callback receives `err` set and `stats === undefined`); `some st`
models a successful stat. -/
structure Stats where
  isFile : Bool
deriving DecidableEq, Repr

/-- A JavaScript runtime error thrown by the embedded code. -/
inductive JsError
  | typeErrorUndefined
deriving DecidableEq, Repr

/-- JS member access `stats.isFile()` where `stats` may be `undefined`:
accessing a property of `undefined` throws a `TypeError`. -/
def jsIsFile : Option Stats → Except JsError Bool
  | none => Except.error JsError.typeErrorUndefined
  | some st => Except.ok st.isFile

/-- The `fs.stat` callback of `watchDir` (helpers.js 102-112).  `err` is the
truthiness of the callback's error argument, `stats` its stats argument
(`none` when `err` holds, as `fs.stat` passes `undefined` on error).
Returns whether the entry is added to `curFiles`, or the error the callback
throws.  Faithfully to the source: the `if (err)` branch calls `fulfill()`
but does not return, so execution always falls through to
`stats.isFile()`. -/
def statCallback (err : Bool) (stats : Option Stats) : Except JsError Bool := do
  let _ := err
  let isf ← jsIsFile stats
  pure isf

/-- One listed directory entry at poll time, with its stat outcome.
`stats = none` models an entry whose `fs.stat` failed (e.g. the file was
deleted between `fs.readdir` and `fs.stat`). -/
structure Entry where
  name : String
  stats : Option Stats
deriving DecidableEq, Repr

/-- A listed entry that is a regular file. -/
def fileEntry (n : String) : Entry := ⟨n, some ⟨true⟩⟩

/-- A listed entry that is not a regular file (directory etc.). -/
def dirEntry (n : String) : Entry := ⟨n, some ⟨false⟩⟩

/-- A listed entry whose stat fails (disappeared between listing and stat). -/
def ghostEntry (n : String) : Entry := ⟨n, none⟩

/-- Builds `curFiles` from the listed entries by running the stat callback
on each (helpers.js 100-113): the regular files are collected, and an entry
whose callback throws propagates the error (in Node this is an uncaught
exception in an `fs` callback, which crashes the process). -/
def buildCurFiles : List Entry → Except JsError (List String)
  | [] => Except.ok []
  | e :: rest => do
    let isf ← statCallback e.stats.isNone e.stats
    let others ← buildCurFiles rest
    pure (if isf then e.name :: others else others)

/-- State of one `watchDir` invocation (helpers.js 93-140): `prevFiles` is
the snapshot (`none` models the initial `null` when `fireInitially` is
false), `cancelled` the closure flag set by the disposer, and `pending`
whether a run of `checkForChanges` is scheduled (initially true, since
`watchDir` calls `checkForChanges()` right away). -/
structure WatchState where
  prevFiles : Option (List String)
  cancelled : Bool
  pending : Bool
deriving DecidableEq, Repr

/-- `watchDir(dir, fireInitially, cb)` initial state (helpers.js 94-95, 136):
`prevFiles = fireInitially ? {} : null`, not cancelled, first check already
scheduled. -/
def watchInit (fireInitially : Bool) : WatchState :=
  { prevFiles := if fireInitially then some [] else none,
    cancelled := false, pending := true }

/-- The disposer returned by `watchDir` (helpers.js 137-139): it only sets
`cancelled`; it does not clear the already-scheduled timer. -/
def dispose (s : WatchState) : WatchState :=
  { s with cancelled := true }

/-- The names of the regular files among the listed entries. -/
def regularNames (entries : List Entry) : List String :=
  (entries.filter fun e => e.stats = some ⟨true⟩).map Entry.name

/-- The filenames the callback fires for in one poll (helpers.js 115-124):
nothing when the previous snapshot is still `null`, otherwise every name of
the new snapshot absent from the previous one. -/
def newFired (prev : Option (List String)) (cur : List String) : List String :=
  match prev with
  | none => []
  | some p => cur.filter (fun f => ¬ p.contains f)

/-- The watcher state after a pending poll ran over `entries` (with all
stats succeeding): snapshot replaced, next poll scheduled unless
cancelled. -/
def firedState (s : WatchState) (entries : List Entry) : WatchState :=
  { prevFiles := some (regularNames entries), cancelled := s.cancelled,
    pending := !s.cancelled }

/-- One firing of the poll timer, i.e. one run of `checkForChanges`
(helpers.js 97-134) over the directory listing `entries`.  If no poll is
pending, nothing happens.  Otherwise the new snapshot is built, the callback
is fired (via `setImmediate`) for each name in the new snapshot missing from
the previous one, the snapshot is replaced, and the next poll is scheduled
unless `cancelled`.  Returns the new state and the fired filenames, or the
error thrown by a stat callback. -/
def timerFire (s : WatchState) (entries : List Entry) :
    Except JsError (WatchState × List String) :=
  if s.pending = false then Except.ok (s, [])
  else
    match buildCurFiles entries with
    | Except.error e => Except.error e
    | Except.ok curFiles =>
      Except.ok ({ prevFiles := some curFiles, cancelled := s.cancelled,
                   pending := !s.cancelled }, newFired s.prevFiles curFiles)

/-- Successive timer firings from a given state, one per directory listing.
Returns the final state and the per-poll fired filenames. -/
def watchGo (s : WatchState) :
    List (List Entry) → Except JsError (WatchState × List (List String))
  | [] => Except.ok (s, [])
  | p :: ps =>
    match timerFire s p with
    | Except.error e => Except.error e
    | Except.ok r =>
      match watchGo r.1 ps with
      | Except.error e => Except.error e
      | Except.ok rest => Except.ok (rest.1, r.2 :: rest.2)

/-- Runs a whole watch: the initial state of `watchDir dir fireInitially cb`
followed by one timer firing per directory listing in `polls`. -/
def watchRun (fireInitially : Bool) (polls : List (List Entry)) :
    Except JsError (WatchState × List (List String)) :=
  watchGo (watchInit fireInitially) polls

/-- A filesystem path, modelled structurally as its list of components. -/
abbrev FsPath := List String

/-- `path.basename(p)`: the last path component. -/
def pathBasename (p : FsPath) : String :=
  List.getLastD p ""

/-- `path.join(dir, name)` for a single trailing name component. -/
def pathJoin (dir : FsPath) (name : String) : FsPath :=
  dir ++ [name]

/-- `moveFileToDir(filepath, destDir)` (helpers.js 56-64), success path: the
file is renamed to `path.join(destDir, path.basename(filepath))` and the
promise fulfills with that new path. -/
def moveFileToDir (filepath : FsPath) (destDir : FsPath) : FsPath :=
  pathJoin destDir (pathBasename filepath)

/-- `path.extname(n)`: the final extension including its dot, empty when the
name has no dot-separated extension. -/
def extname (n : String) : String :=
  match (n.splitOn ".").reverse with
  | ext :: _ :: _ => "." ++ ext
  | _ => ""

/-- An invocation of `child_process.execFile`: command, argument list, and
the `timeout` option in milliseconds (`none` when no options object is
passed, in which case Node applies no timeout). -/
structure ExecInvocation where
  cmd : String
  args : List String
  timeout : Option Nat
deriving DecidableEq, Repr

/-- The `execFile` invocation built by `signFile(filepath)` of winsigner.js
(lines 94-122): `signtool sign /tr <tsa> /td sha256 /fd sha256` followed by
the certificate selection (`/f` file or `/n` store name, or `/a` when no
certificate is configured) and the target file path.  `execFile` is called
with `(signTool, args, callback)` — no options object, hence no timeout. -/
def signFileInvocation (signTool : String) (certName : Option String)
    (filepath : String) : ExecInvocation :=
  { cmd := signTool,
    args := ["sign", "/tr", "http://timestamp.digicert.com",
             "/td", "sha256", "/fd", "sha256"]
      ++ (match certName with
          | some c => (if extname c = ".pfx" then ["/f"] else ["/n"]) ++ [c]
          | none => ["/a"])
      ++ [filepath],
    timeout := none }

/-- A console log line. -/
def LogLine := String
deriving DecidableEq, Repr

/-- `handleFile(filepath)` of winsigner.js (lines 80-86), given the result of
`signFile` (which fulfills with the same, unrenamed `filepath`) and of the
subsequent `moveFileToDir` into the output directory.  Returns the settled
state of the promise `handleFile` returns, the log lines produced, and the
output path when the move happened.  The trailing
`.catch(err => console.error(...))` converts any rejection into a fulfilled
promise after logging. -/
def handleFile (filepath : FsPath) (outputDir : FsPath)
    (signResult : Except String Unit) (moveResult : Except String Unit) :
    POutcome × List LogLine × Option FsPath :=
  match signResult with
  | Except.error e =>
    (POutcome.fulfilled, ["Signing...", "ERROR: " ++ e], none)
  | Except.ok _ =>
    match moveResult with
    | Except.error e =>
      (POutcome.fulfilled, ["Signing...", "ERROR: " ++ e], none)
    | Except.ok _ =>
      let outpath := moveFileToDir filepath outputDir
      (POutcome.fulfilled, ["Signing...", "Done."], some outpath)

/-- The watcher callback body of winsigner.js (lines 62-72): a detected
basename is enqueued (keyed by its full input path) only when it has the
`.exe` extension and the readability check succeeds.  Returns the queue
submission, `none` when the file is filtered out or vanished. -/
def agentOnDetect (inputDir : FsPath) (basename : String) (readable : Bool)
    (outcome : POutcome) : Option (POutcome × Option String) :=
  if extname basename = ".exe" then
    if readable then
      some (outcome, some (String.intercalate "/" (pathJoin inputDir basename)))
    else none
  else none

/-- `signWindowsExecutable(filepath)` of osslsigncode.js (lines 61-77):
`origname = path.basename(filepath)`; the watcher callback accepts a
basename appearing in the output directory exactly when it equals
`origname`. -/
def clientAccepts (filepath : FsPath) (basename : String) : Bool :=
  basename == pathBasename filepath

/-- The path `signWindowsExecutable` resolves with when it accepts
`basename`: `path.join(OUTPUT_DIR, basename)`. -/
def clientResolve (outputDir : FsPath) (basename : String) : FsPath :=
  pathJoin outputDir basename

/-- The relocation step of osslsigncode.js (lines 42-58): after the signed
file is retrieved, `cp` copies it to the final destination and `rm` deletes
the handoff copy.  A `cp` failure throws out of the `.then` handler and
reaches `.catch(criticalError)` — fatal; an `rm` failure is caught locally,
logged, and execution continues to `console.log('Done')`. -/
def finishHandoff (cpResult : Except String Unit) (rmResult : Except String Unit) :
    Except String (List LogLine) :=
  match cpResult with
  | Except.error e => Except.error e
  | Except.ok _ =>
    match rmResult with
    | Except.error e => Except.ok ["rm failed, but so be it " ++ e, "Done"]
    | Except.ok _ => Except.ok ["Done"]

/-- The environment block `buildRelease` passes to the external build tool
(builder.js 251-257): `GH_TOKEN` always; when signing is not disabled, also
`SHARED_DIR`, `SIGNTOOL_TIMEOUT = '1200000'` (20 minutes), `SIGNTOOL_PATH`
(the osslsigncode.js replacement) and a dummy `WIN_CSC_LINK`. -/
def buildReleaseEnv (ghToken sharedDir signtoolPath : String) (nosign : Bool) :
    List (String × String) :=
  [("GH_TOKEN", ghToken)] ++
    (if nosign then []
     else [("SHARED_DIR", sharedDir),
           ("SIGNTOOL_TIMEOUT", "1200000"),
           ("SIGNTOOL_PATH", signtoolPath),
           ("WIN_CSC_LINK", "ZmFrZWNlcnQ=")])
theorem chainRan_nil : chainRan [] = [] := rfl

theorem chainRan_cons_fulfilled (ops : List POutcome) :
    chainRan (POutcome.fulfilled :: ops) = true :: chainRan ops := by
  unfold chainRan
  simp [List.range_succ_eq_map, List.map_map, Function.comp]

theorem chainRan_cons_rejected (ops : List POutcome) :
    chainRan (POutcome.rejected :: ops) =
      true :: List.replicate ops.length false := by
  unfold chainRan
  simp [List.range_succ_eq_map, List.map_map, Function.comp,
    List.eq_replicate_iff]

theorem queueNames_const (s : QueueState) (fn : POutcome) (name : Option String) :
    (Queue.add s fn name).1.names = s.names := by
  unfold Queue.add
  cases name <;> dsimp only <;> split <;> rfl

theorem runQueue_names_const (s : QueueState) (subs : List (POutcome × Option String)) :
    (runQueue s subs).1.names = s.names := by
  induction subs generalizing s with
  | nil => rfl
  | cons x rest ih =>
    obtain ⟨fn, name⟩ := x
    show (runQueue (Queue.add s fn name).1 rest).1.names = s.names
    rw [ih, queueNames_const]

theorem runQueue_rejected_tail (s : QueueState) (ops : List POutcome)
    (h : s.tail = some POutcome.rejected) :
    (runQueue s (ops.map (fun o => (o, none)))).2 =
      List.replicate ops.length false := by
  induction ops generalizing s with
  | nil => rfl
  | cons o rest ih =>
    show ((runQueue (Queue.add s o none).1 (rest.map _)).1,
      (Queue.add s o none).2 :: (runQueue (Queue.add s o none).1 (rest.map _)).2).2 = _
    have hadd : Queue.add s o none =
        ({ s with tail := some POutcome.rejected }, false) := by
      unfold Queue.add
      simp [chainStep, h]
    rw [hadd]
    simp [ih { s with tail := some POutcome.rejected } rfl, List.replicate_succ]

theorem runQueue_ready_chainRan (s : QueueState) (ops : List POutcome)
    (h : s.tail ≠ some POutcome.rejected) :
    (runQueue s (ops.map (fun o => (o, none)))).2 = chainRan ops := by
  induction ops generalizing s with
  | nil => rfl
  | cons o rest ih =>
    show ((runQueue (Queue.add s o none).1 (rest.map _)).1,
      (Queue.add s o none).2 :: (runQueue (Queue.add s o none).1 (rest.map _)).2).2 = _
    have hadd : Queue.add s o none = ({ s with tail := some o }, true) := by
      unfold Queue.add
      rcases ht : s.tail with _ | ⟨_ | _⟩
      · simp [chainStep]
      · simp [chainStep]
      · exact absurd ht h
    rw [hadd]
    cases o with
    | fulfilled =>
      rw [chainRan_cons_fulfilled]
      simp [ih { s with tail := some POutcome.fulfilled } (by simp)]
    | rejected =>
      rw [chainRan_cons_rejected]
      simp [runQueue_rejected_tail { s with tail := some POutcome.rejected } rest rfl]
theorem chainRan_all_fulfilled (ops : List POutcome)
    (h : ∀ o ∈ ops, o = POutcome.fulfilled) :
    chainRan ops = List.replicate ops.length true := by
  induction ops with
  | nil => rfl
  | cons o rest ih =>
    have ho : o = POutcome.fulfilled := h o (List.mem_cons_self o rest)
    subst ho
    rw [chainRan_cons_fulfilled, ih fun o hm => h o (List.mem_cons_of_mem _ hm)]
    simp [List.replicate_succ]

theorem buildCurFiles_good (entries : List Entry)
    (h : ∀ e ∈ entries, e.stats.isSome) :
    buildCurFiles entries = Except.ok (regularNames entries) := by
  induction entries with
  | nil => rfl
  | cons e rest ih =>
    obtain ⟨st, hst⟩ := Option.isSome_iff_exists.mp (h e (List.mem_cons_self e rest))
    have hrest := ih fun x hm => h x (List.mem_cons_of_mem _ hm)
    unfold buildCurFiles
    rw [hrest]
    obtain ⟨b⟩ := st
    cases b with
    | true =>
      simp [hst, statCallback, jsIsFile, regularNames, List.filter_cons]
      rfl
    | false =>
      simp [hst, statCallback, jsIsFile, regularNames, List.filter_cons]
      rfl

theorem timerFire_not_pending (s : WatchState) (entries : List Entry)
    (h : s.pending = false) :
    timerFire s entries = Except.ok (s, []) := by
  unfold timerFire
  simp [h]

theorem timerFire_pending_good (s : WatchState) (entries : List Entry)
    (hp : s.pending = true) (h : ∀ e ∈ entries, e.stats.isSome) :
    timerFire s entries = Except.ok
      (firedState s entries, newFired s.prevFiles (regularNames entries)) := by
  unfold timerFire firedState
  rw [buildCurFiles_good entries h]
  simp [hp]

/-- C1: evaluation of the code at the failing input.  The claim says a second
submission with an already-used dedup key is discarded without being run; in
the source, `Queue.add` reads `this.names[name]` but no statement ever
assigns to `this.names`, so on a fresh queue two submissions with the same
key "X" both run, and the key record stays empty afterwards. -/
theorem C1_dedup_never_triggers :
    runQueue Queue.new
        [(POutcome.fulfilled, some "X"), (POutcome.fulfilled, some "X")] =
      ({ names := [], tail := some POutcome.fulfilled }, [true, true]) := by
  rfl

/-- C2 counterexample: an operation submitted with no key after a rejected
operation never runs — `this.tail.then(fn)` skips `fn` on a rejected tail —
refuting "a failure (rejection) of one operation does not halt the chain:
every subsequently submitted operation still runs". -/
theorem C2_chain_halts_counterexample :
    (runQueue Queue.new
        [(POutcome.rejected, none), (POutcome.fulfilled, none)]).2 =
      [true, false] := by
  rfl

/-- C2 (amended): operations submitted to a fresh queue with no keys run
sequentially in submission order, each beginning only after the previous
completed successfully: the i-th operation runs exactly when every earlier
operation's promise fulfilled, so a rejection prevents every subsequently
submitted operation from running. -/
theorem C2_amended_sequential_until_rejection (ops : List POutcome) :
    (runQueue Queue.new (ops.map (fun o => (o, none)))).2 = chainRan ops :=
  runQueue_ready_chainRan Queue.new ops (by decide)

/-- C3: evaluation of the code at the failing input.  When `fs.stat` fails
for a listed entry (the callback gets `err` set and `stats === undefined`),
the error branch calls `fulfill()` but does not return, so the following
`stats.isFile()` dereferences `undefined` and throws a `TypeError`, which is
uncaught in the `fs` callback and crashes the watcher process instead of
treating the entry as missing and continuing to poll. -/
theorem C3_stat_failure_crashes :
    statCallback true none = Except.error JsError.typeErrorUndefined ∧
    buildCurFiles [ghostEntry "ghost"] =
      Except.error JsError.typeErrorUndefined ∧
    timerFire (watchInit false) [ghostEntry "ghost"] =
      Except.error JsError.typeErrorUndefined :=
  ⟨rfl, rfl, rfl⟩

/-- C7 counterexample: the signing agent's `signFile` calls
`execFile(signTool, args, callback)` with no options object, so the external
signing command is invoked with no timeout at all, refuting "the external
signing command is invoked with a configurable wall-clock timeout". -/
theorem C7_no_timeout_counterexample :
    (signFileInvocation
        "c:\\Program Files (x86)\\Windows Kits\\10\\bin\\x64\\signtool.exe"
        (some "MyCert") "C:\\shared\\in\\update.exe").timeout = none := by
  rfl

/-- C7 (amended): the signing agent invokes signtool with no timeout; the
configurable wall-clock timeout exists on the build host instead, where
`buildRelease` passes `SIGNTOOL_TIMEOUT = '1200000'` (20 minutes) in the
environment of the external build tool that invokes the handoff client. -/
theorem C7_amended_timeout_on_build_side (tool filepath ghToken sharedDir
    signtoolPath : String) (certName : Option String) :
    (signFileInvocation tool certName filepath).timeout = none ∧
    ("SIGNTOOL_TIMEOUT", "1200000") ∈
      buildReleaseEnv ghToken sharedDir signtoolPath false := by
  exact ⟨rfl, by simp [buildReleaseEnv]⟩

/-- C9: when the handoff client relocates the signed artifact, a failure of
the `cp` step is fatal (it reaches `.catch(criticalError)`), while a failure
of the `rm` step is caught locally, logged ("rm failed, but so be it"), and
the handoff still completes, logging "Done". -/
theorem C9_copy_then_best_effort_delete (e : String)
    (rmRes : Except String Unit) :
    finishHandoff (Except.error e) rmRes = Except.error e ∧
    finishHandoff (Except.ok ()) (Except.error e) =
      Except.ok ["rm failed, but so be it " ++ e, "Done"] ∧
    finishHandoff (Except.ok ()) (Except.ok ()) = Except.ok ["Done"] :=
  ⟨rfl, rfl, rfl⟩

theorem pathBasename_join (dir : FsPath) (n : String) :
    pathBasename (pathJoin dir n) = n :=
  List.getLastD_concat "" n dir

/-- C5: round-trip handoff preserves the basename.  Placing a file into the
input directory puts it at `in/<basename>`; the agent signs it in place (the
sign step fulfills with the unrenamed path) and `moveFileToDir` relocates it
to `out/<basename>`, the same basename; the handoff client's watch accepts
exactly that basename and resolves with `path.join(OUTPUT_DIR, basename)`,
which is exactly the path the agent produced. -/
theorem C5_basename_roundtrip (sharedIn sharedOut file : FsPath) :
    moveFileToDir file sharedIn = pathJoin sharedIn (pathBasename file) ∧
    pathBasename (pathJoin sharedIn (pathBasename file)) = pathBasename file ∧
    (handleFile (pathJoin sharedIn (pathBasename file)) sharedOut
        (Except.ok ()) (Except.ok ())).2.2 =
      some (pathJoin sharedOut (pathBasename file)) ∧
    pathBasename (pathJoin sharedOut (pathBasename file)) = pathBasename file ∧
    (∀ b, clientAccepts file b = true ↔ b = pathBasename file) ∧
    clientResolve sharedOut (pathBasename file) =
      pathJoin sharedOut (pathBasename file) := by
  refine ⟨rfl, pathBasename_join _ _, ?_, pathBasename_join _ _, ?_, rfl⟩
  · simp [handleFile, moveFileToDir, pathBasename_join]
  · intro b
    simp [clientAccepts]

/-- C8: per-item failure isolation in the signing agent.  `handleFile` ends
in `.catch(err => console.error(...))`, so its promise always fulfills: a
sign (or move) failure only produces an error log line and abandons that
file, with no retry; consequently a queue of such jobs runs every one of
them, whatever the individual sign/move results. -/
theorem C8_per_item_isolation (filepath outputDir : FsPath)
    (signRes moveRes : Except String Unit) (e : String)
    (jobs : List (FsPath × Except String Unit × Except String Unit)) :
    (handleFile filepath outputDir signRes moveRes).1 = POutcome.fulfilled ∧
    handleFile filepath outputDir (Except.error e) moveRes =
      (POutcome.fulfilled, ["Signing...", "ERROR: " ++ e], none) ∧
    (runQueue Queue.new
        (jobs.map fun j => ((handleFile j.1 outputDir j.2.1 j.2.2).1, none))).2 =
      List.replicate jobs.length true := by
  have hful : ∀ (fp od : FsPath) (sr mr : Except String Unit),
      (handleFile fp od sr mr).1 = POutcome.fulfilled := by
    intro fp od sr mr
    cases sr with
    | error _ => rfl
    | ok _ => cases mr with
      | error _ => rfl
      | ok _ => rfl
  refine ⟨hful _ _ _ _, rfl, ?_⟩
  have hmap : (jobs.map fun j => ((handleFile j.1 outputDir j.2.1 j.2.2).1, none))
      = ((jobs.map fun j => (handleFile j.1 outputDir j.2.1 j.2.2).1).map
          fun o => (o, (none : Option String))) := by
    rw [List.map_map]
    rfl
  rw [hmap, runQueue_ready_chainRan Queue.new _ (by decide),
    chainRan_all_fulfilled _ ?_, List.length_map]
  intro o ho
  obtain ⟨j, _, hj⟩ := List.mem_map.mp ho
  rw [← hj]
  exact hful _ _ _ _

theorem filter_not_contains_nil (l : List String) :
    (l.filter fun g => ¬ (([] : List String).contains g)) = l := by
  induction l with
  | nil => rfl
  | cons a t ih => simp [List.filter_cons, ih]

theorem mem_regularNames_of_fileEntry (entries : List Entry) (f : String)
    (h : fileEntry f ∈ entries) : f ∈ regularNames entries := by
  unfold regularNames
  exact List.mem_map.mpr ⟨fileEntry f, List.mem_filter.mpr ⟨h, by rfl⟩, rfl⟩

theorem regularNames_sublist (entries : List Entry) :
    (regularNames entries).Sublist (entries.map Entry.name) :=
  List.Sublist.map Entry.name (List.filter_sublist entries)

theorem timerFire_disposed_pending (s : WatchState) (entries : List Entry)
    (s' : WatchState) (fired : List String)
    (h : timerFire (dispose s) entries = Except.ok (s', fired)) :
    s'.pending = false := by
  unfold timerFire at h
  by_cases hp : (dispose s).pending = false
  · rw [if_pos hp] at h
    obtain ⟨h1, _⟩ := Prod.mk.injEq .. ▸ Except.ok.inj h
    rw [← h1, hp]
  · rw [if_neg hp] at h
    cases hb : buildCurFiles entries with
    | error e => rw [hb] at h; exact absurd h (by simp)
    | ok cur =>
      rw [hb] at h
      obtain ⟨h1, _⟩ := Prod.mk.injEq .. ▸ Except.ok.inj h
      rw [← h1]
      show (!(dispose s).cancelled) = false
      simp [dispose]

theorem watchGo_cons_ok (s s1 : WatchState) (fired0 : List String)
    (p : List Entry) (ps : List (List Entry))
    (h : timerFire s p = Except.ok (s1, fired0)) :
    watchGo s (p :: ps) =
      match watchGo s1 ps with
      | Except.error e => Except.error e
      | Except.ok rest => Except.ok (rest.1, fired0 :: rest.2) := by
  conv_lhs => unfold watchGo
  rw [h]

theorem watchGo_continuous_absent (polls : List (List Entry)) (f : String) :
    ∀ s : WatchState,
      (∀ p ∈ polls, ∀ e ∈ p, e.stats.isSome) →
      (∀ p ∈ polls, f ∈ regularNames p) →
      (s.prevFiles = none ∨ ∃ prev, s.prevFiles = some prev ∧ f ∈ prev) →
      ∀ st fired, watchGo s polls = Except.ok (st, fired) →
        ∀ l ∈ fired, f ∉ l := by
  induction polls with
  | nil =>
    intro s _ _ _ st fired h l hl
    obtain ⟨-, h2⟩ := Prod.mk.injEq .. ▸ Except.ok.inj h
    rw [← h2] at hl
    simp at hl
  | cons p ps ih =>
    intro s hgood hin hs st fired h l hl
    have hgood_p := hgood p (List.mem_cons_self p ps)
    have hgood_ps : ∀ q ∈ ps, ∀ e ∈ q, e.stats.isSome :=
      fun q hq => hgood q (List.mem_cons_of_mem _ hq)
    have hin_ps : ∀ q ∈ ps, f ∈ regularNames q :=
      fun q hq => hin q (List.mem_cons_of_mem _ hq)
    by_cases hp : s.pending = false
    · rw [watchGo_cons_ok s s [] p ps (timerFire_not_pending s p hp)] at h
      cases hw : watchGo s ps with
      | error e => rw [hw] at h; exact absurd h (by simp)
      | ok rest =>
        rw [hw] at h
        obtain ⟨-, h2⟩ := Prod.mk.injEq .. ▸ Except.ok.inj h
        rw [← h2] at hl
        rcases List.mem_cons.mp hl with hl0 | hl1
        · subst hl0; exact List.not_mem_nil f
        · exact ih s hgood_ps hin_ps hs rest.1 rest.2 (by rw [hw]) l hl1
    · have hp' : s.pending = true := by
        revert hp; cases s.pending <;> simp
      rw [watchGo_cons_ok s (firedState s p) (newFired s.prevFiles (regularNames p))
        p ps (timerFire_pending_good s p hp' hgood_p)] at h
      have hs1 : (firedState s p).prevFiles = none ∨
          ∃ prev, (firedState s p).prevFiles = some prev ∧ f ∈ prev :=
        Or.inr ⟨regularNames p, rfl, hin p (List.mem_cons_self p ps)⟩
      have hnotfired0 : f ∉ newFired s.prevFiles (regularNames p) := by
        rcases hs with hnone | ⟨prev, hsp, hfp⟩
        · rw [hnone]
          exact List.not_mem_nil f
        · rw [hsp]
          intro hmem
          have := List.mem_filter.mp hmem
          simp at this
          exact this.2 hfp
      cases hw : watchGo (firedState s p) ps with
      | error e => rw [hw] at h; exact absurd h (by simp)
      | ok rest =>
        rw [hw] at h
        obtain ⟨-, h2⟩ := Prod.mk.injEq .. ▸ Except.ok.inj h
        rw [← h2] at hl
        rcases List.mem_cons.mp hl with hl0 | hl1
        · rw [hl0]; exact hnotfired0
        · exact ih _ hgood_ps hin_ps hs1 rest.1 rest.2 (by rw [hw]) l hl1

/-- C4: fire-initially semantics of the watcher.  With the flag false the
first poll fires no callback and records the regular files as the snapshot;
with the flag true the first poll fires for every regular file present.  In
any later poll (previous snapshot `prev` in place) the fired names are
exactly the regular files of the new listing absent from `prev` — so each
new appearance fires exactly once (no duplicates when the listing has
distinct names) — and a file regular in every poll of a flag-false watch
never fires. -/
theorem C4_fire_initially_semantics (entries : List Entry) (s : WatchState)
    (prev : List String) (f : String) (polls : List (List Entry))
    (hgood : ∀ e ∈ entries, e.stats.isSome)
    (hp : s.pending = true) (hprev : s.prevFiles = some prev)
    (hgoodp : ∀ p ∈ polls, ∀ e ∈ p, e.stats.isSome)
    (hinp : ∀ p ∈ polls, f ∈ regularNames p) :
    timerFire (watchInit false) entries =
      Except.ok ({ prevFiles := some (regularNames entries),
                   cancelled := false, pending := true }, []) ∧
    timerFire (watchInit true) entries =
      Except.ok ({ prevFiles := some (regularNames entries),
                   cancelled := false, pending := true }, regularNames entries) ∧
    timerFire s entries =
      Except.ok (firedState s entries,
        (regularNames entries).filter (fun g => ¬ prev.contains g)) ∧
    (∀ g, g ∈ (regularNames entries).filter (fun g => ¬ prev.contains g) ↔
      (g ∈ regularNames entries ∧ g ∉ prev)) ∧
    ((entries.map Entry.name).Nodup →
      ((regularNames entries).filter (fun g => ¬ prev.contains g)).Nodup) ∧
    (∀ st fired, watchRun false polls = Except.ok (st, fired) →
      ∀ l ∈ fired, f ∉ l) := by
  refine ⟨?_, ?_, ?_, ?_, ?_, ?_⟩
  · rw [timerFire_pending_good (watchInit false) entries rfl hgood]
    rfl
  · rw [timerFire_pending_good (watchInit true) entries rfl hgood,
      show newFired (watchInit true).prevFiles (regularNames entries) =
        regularNames entries from filter_not_contains_nil _]
    rfl
  · rw [timerFire_pending_good s entries hp hgood, hprev]
    rfl
  · intro g
    simp [List.mem_filter]
  · intro hnd
    exact List.Nodup.sublist
      ((List.filter_sublist _).trans (regularNames_sublist entries)) hnd
  · intro st fired h
    exact watchGo_continuous_absent polls f (watchInit false) hgoodp hinp
      (Or.inl rfl) st fired h

/-- C4 witness: a concrete instantiation of the fire-initially theorem, with
all hypotheses discharged on explicit inputs. -/
theorem C4_fire_initially_semantics_witness :
    timerFire (watchInit false) [fileEntry "a", dirEntry "d"] =
      Except.ok ({ prevFiles := some ["a"], cancelled := false,
                   pending := true }, []) ∧
    timerFire (watchInit true) [fileEntry "a", dirEntry "d"] =
      Except.ok ({ prevFiles := some ["a"], cancelled := false,
                   pending := true }, ["a"]) ∧
    timerFire ⟨some ["a"], false, true⟩ [fileEntry "a", dirEntry "d"] =
      Except.ok (⟨some ["a"], false, true⟩, []) ∧
    (∀ g, g ∈ (regularNames [fileEntry "a", dirEntry "d"]).filter
        (fun g => ¬ (["a"] : List String).contains g) ↔
      (g ∈ regularNames [fileEntry "a", dirEntry "d"] ∧
        g ∉ (["a"] : List String))) ∧
    ((([fileEntry "a", dirEntry "d"] : List Entry).map Entry.name).Nodup →
      ((regularNames [fileEntry "a", dirEntry "d"]).filter
        (fun g => ¬ (["a"] : List String).contains g)).Nodup) ∧
    (∀ st fired,
      watchRun false [[fileEntry "c"], [fileEntry "b", fileEntry "c"]] =
        Except.ok (st, fired) → ∀ l ∈ fired, "c" ∉ l) :=
  C4_fire_initially_semantics [fileEntry "a", dirEntry "d"]
    ⟨some ["a"], false, true⟩ ["a"] "c"
    [[fileEntry "c"], [fileEntry "b", fileEntry "c"]]
    (by decide) rfl rfl (by decide) (by decide)

/-- C6 counterexample: dispose does not clear the already-scheduled timer
and the cancellation flag is only consulted after callbacks fire, so when a
poll is pending at disposal time, a file created after disposal still fires
the callback: starting a flag-false watch over an empty directory, then
disposing, then letting the pending poll see a new file, fires for
"newfile" — refuting "a file created after disposal produces no callback
invocation". -/
theorem C6_callback_after_dispose_counterexample :
    (match timerFire (watchInit false) [] with
     | Except.error e => Except.error e
     | Except.ok r1 =>
       match timerFire (dispose r1.1) [fileEntry "newfile"] with
       | Except.error e => Except.error e
       | Except.ok r2 => Except.ok r2.2) = Except.ok ["newfile"] := by
  rfl

/-- C6 (amended): after the disposer runs, the one already-pending poll
still completes — and may fire callbacks for files that appeared after
disposal — but it does not re-schedule itself: the resulting state has no
pending poll, and a timer firing in a no-pending state does nothing and
fires no callback, so no poll after the pending one ever runs. -/
theorem C6_amended_dispose_semantics (s : WatchState)
    (entries entries2 : List Entry) :
    (s.pending = false → timerFire s entries = Except.ok (s, [])) ∧
    (∀ s' fired, timerFire (dispose s) entries = Except.ok (s', fired) →
      s'.pending = false ∧ timerFire s' entries2 = Except.ok (s', [])) := by
  refine ⟨fun h => timerFire_not_pending s entries h, fun s' fired h => ?_⟩
  have hp := timerFire_disposed_pending s entries s' fired h
  exact ⟨hp, timerFire_not_pending s' entries2 hp⟩

/-- C6 witness: concrete instantiations of the dispose-semantics theorem
with every hypothesis discharged. -/
theorem C6_amended_dispose_semantics_witness :
    (timerFire ⟨some [], true, false⟩ [fileEntry "x"] =
      Except.ok (⟨some [], true, false⟩, [])) ∧
    ((⟨some ["x"], true, false⟩ : WatchState).pending = false ∧
      timerFire (⟨some ["x"], true, false⟩ : WatchState) [fileEntry "y"] =
        Except.ok ((⟨some ["x"], true, false⟩ : WatchState), [])) :=
  ⟨(C6_amended_dispose_semantics ⟨some [], true, false⟩ [fileEntry "x"]
      [fileEntry "y"]).1 rfl,
   (C6_amended_dispose_semantics ⟨some [], false, true⟩ [fileEntry "x"]
      [fileEntry "y"]).2 ⟨some ["x"], true, false⟩ ["x"] rfl⟩

/-- C10: the watcher diffs only against the immediately preceding snapshot.
Any pending poll whose previous snapshot lacks `f` and whose listing has `f`
as a regular file fires `f` again; in particular a flag-false watch over the
listings [f-present, f-absent, f-present] fires nothing, nothing, and then
`f` again on its reappearance. -/
theorem C10_diff_against_prev_snapshot_only (s : WatchState)
    (prev : List String) (entries : List Entry) (f : String)
    (hp : s.pending = true) (hprev : s.prevFiles = some prev)
    (hnot : f ∉ prev) (hmem : fileEntry f ∈ entries)
    (hgood : ∀ e ∈ entries, e.stats.isSome) :
    (∃ s' fired, timerFire s entries = Except.ok (s', fired) ∧ f ∈ fired) ∧
    watchRun false [[fileEntry f], [], [fileEntry f]] =
      Except.ok ((⟨some [f], false, true⟩ : WatchState), [[], [], [f]]) := by
  constructor
  · refine ⟨firedState s entries, newFired s.prevFiles (regularNames entries),
      timerFire_pending_good s entries hp hgood, ?_⟩
    rw [hprev]
    exact List.mem_filter.mpr
      ⟨mem_regularNames_of_fileEntry entries f hmem, by simpa using hnot⟩
  · rfl

/-- C10 witness: the reappearance theorem applied at a concrete state and
listing, with every hypothesis discharged. -/
theorem C10_diff_against_prev_snapshot_only_witness :
    (∃ s' fired, timerFire ⟨some [], false, true⟩ [fileEntry "u"] =
      Except.ok (s', fired) ∧ "u" ∈ fired) ∧
    watchRun false [[fileEntry "u"], [], [fileEntry "u"]] =
      Except.ok ((⟨some ["u"], false, true⟩ : WatchState), [[], [], ["u"]]) :=
  C10_diff_against_prev_snapshot_only ⟨some [], false, true⟩ [] [fileEntry "u"]
    "u" rfl rfl (by decide) (by decide) (by decide)
